import Mathlib

/-!
Verification development for the core evolutionary engine implemented in
ExpManager.cpp (mini-Aevol).  The per-generation pipeline (promoter and
terminator indices, RNA construction, protein decoding, phenotype folding,
fitness, spatial selection, best-individual search, checkpointing) is given
a shallow embedding: positions on the circular genome are natural numbers,
exact C++ double arithmetic is modelled by rationals, and the few places
where IEEE non-finite values can arise use an explicit marker type with
plus-infinity, minus-infinity and not-a-number values.

Conventions.  The genome length is L; the promoter index is a list of
(position, distance) pairs in the iteration order of the std::map (positions
strictly increasing), and the terminator index is the strictly sorted list
of positions of the std::set.  For freshly rebuilt indices (start_stop_RNA),
membership of a position q in the terminator index is equivalent to the test
terminator_at(q) == 4 that the linear scan performs directly on the DNA, so
both RNA builders can be embedded over the same index data.
-/

namespace Aevol

/-! ## Definitions: RNA construction (ExpManager.cpp lines 440-559) -/

/-- RNA record as created by the builders: begin and end positions on the
circular genome, expression level and the stored length.  The length is kept
as an integer because the C++ value can be negative before the retention
test. -/
structure RNA where
  begin : ℕ
  end_ : ℕ
  e : ℚ
  length : ℤ
deriving DecidableEq, Repr

/-- Position arithmetic used throughout ExpManager.cpp: add an offset and
subtract the genome length once if the result overflows (the code never
takes a full modulus; it relies on the base position being below L). -/
def wrapAdd (L p k : ℕ) : ℕ := if p + k ≥ L then p + k - L else p + k

/-- Circular distance from b to e as computed in both RNA builders
(lines 485-488 and 540-543): if (b > e) then L - b + e else e - b. -/
def circLen (L b e : ℕ) : ℕ := if b > e then L - b + e else e - b

/-- Linear terminator scan of opt_prom_compute_RNA (lines 462-476): starting
at cur, test positions one by one (with wrap-around) for membership in the
terminator index; the loop stops when it has come back to its start
position, i.e. after exactly L tests, which is the fuel used here. -/
def scanLoop (term : List ℕ) (L : ℕ) : ℕ → ℕ → Option ℕ
  | 0, _ => none
  | fuel + 1, cur =>
    if cur ∈ term then some cur
    else scanLoop term L fuel (wrapAdd L cur 1)

/-- Per-promoter body of opt_prom_compute_RNA (lines 449-503): scan for a
terminator from (p + 22), build the RNA ending at terminator + 10 with
expression 1 - |d| / 5, and retain it only when rna_length > 0. -/
def optPerProm (term : List ℕ) (L : ℕ) (pd : ℕ × ℕ) : Option RNA :=
  match scanLoop term L L (wrapAdd L pd.1 22) with
  | none => none
  | some t =>
    let rnaEnd := wrapAdd L t 10
    let rnaLength : ℤ := (circLen L pd.1 rnaEnd : ℤ) - 21
    if 0 < rnaLength then
      some ⟨pd.1, rnaEnd, 1 - |(pd.2 : ℚ)| / 5, rnaLength⟩
    else none

/-- Linear-scan RNA construction (opt_prom_compute_RNA, lines 440-506, with
the mutation flag set so the body runs, starting from cleared RNA state):
one optional RNA per promoter, in promoter order. -/
def opt_prom_compute_RNA (proms : List (ℕ × ℕ)) (term : List ℕ) (L : ℕ) : List RNA :=
  proms.filterMap (optPerProm term L)

/-- Ordered-set lookup of compute_RNA (lines 528-532): lower_bound on the
terminator set from k, wrapping to the first terminator when none is at or
above k.  Only ever reached with a non-empty terminator list. -/
def lowerBoundWrap (term : List ℕ) (k : ℕ) : ℕ :=
  match term.find? (fun t => decide (k ≤ t)) with
  | some t => t
  | none => term.headI

/-- Per-promoter body of compute_RNA (lines 520-558): lower-bound lookup
from (p + 22), RNA end at terminator + 10, retained when rna_length >= 0. -/
def computePerProm (term : List ℕ) (L : ℕ) (pd : ℕ × ℕ) : Option RNA :=
  let t := lowerBoundWrap term (wrapAdd L pd.1 22)
  let rnaEnd := wrapAdd L t 10
  let rnaLength : ℤ := (circLen L pd.1 rnaEnd : ℤ) - 21
  if 0 ≤ rnaLength then
    some ⟨pd.1, rnaEnd, 1 - |(pd.2 : ℚ)| / 5, rnaLength⟩
  else none

/-- Terminator-set RNA construction (compute_RNA, lines 514-559) starting
from an empty RNA state: early return on an empty terminator set, otherwise
one optional RNA per promoter, in promoter order. -/
def compute_RNA (proms : List (ℕ × ℕ)) (term : List ℕ) (L : ℕ) : List RNA :=
  if term.isEmpty then [] else proms.filterMap (computePerProm term L)

/-! ## Definitions: model of IEEE doubles

Exact double arithmetic is modelled by rationals; the non-finite values that
division by zero can produce are tracked explicitly.  fin q is a finite
value, pinf and ninf are the signed infinities and nan is not-a-number. -/

/-- Value of a C++ double in this development: a finite rational or one of
the IEEE non-finite values. -/
inductive Dbl where
  | fin : ℚ → Dbl
  | pinf : Dbl
  | ninf : Dbl
  | nan : Dbl
deriving DecidableEq, Repr

namespace Dbl

/-- IEEE addition on the model: finite values add exactly, infinities
absorb finite values, opposite infinities give nan, nan propagates. -/
def add : Dbl → Dbl → Dbl
  | fin a, fin b => fin (a + b)
  | fin _, pinf => pinf
  | fin _, ninf => ninf
  | pinf, fin _ => pinf
  | ninf, fin _ => ninf
  | pinf, pinf => pinf
  | ninf, ninf => ninf
  | pinf, ninf => nan
  | ninf, pinf => nan
  | nan, _ => nan
  | _, nan => nan

/-- IEEE negation on the model. -/
def neg : Dbl → Dbl
  | fin a => fin (-a)
  | pinf => ninf
  | ninf => pinf
  | nan => nan

/-- IEEE subtraction on the model, as addition of the negation. -/
def sub (a b : Dbl) : Dbl := add a (neg b)

/-- IEEE multiplication on the model: zero times an infinity is nan,
otherwise infinities keep the sign rule, nan propagates. -/
def mul : Dbl → Dbl → Dbl
  | fin a, fin b => fin (a * b)
  | fin a, pinf => if a = 0 then nan else if 0 < a then pinf else ninf
  | fin a, ninf => if a = 0 then nan else if 0 < a then ninf else pinf
  | pinf, fin b => if b = 0 then nan else if 0 < b then pinf else ninf
  | ninf, fin b => if b = 0 then nan else if 0 < b then ninf else pinf
  | pinf, pinf => pinf
  | ninf, ninf => pinf
  | pinf, ninf => ninf
  | ninf, pinf => ninf
  | nan, _ => nan
  | _, nan => nan

end Dbl

/-- IEEE division of two finite values: zero over zero is nan, a nonzero
numerator over zero gives the signed infinity, otherwise the exact
quotient.  This is the only division the embedded code performs. -/
def divQ (a b : ℚ) : Dbl :=
  if b = 0 then (if a = 0 then Dbl.nan else if 0 < a then Dbl.pinf else Dbl.ninf)
  else Dbl.fin (a / b)

/-! ## Definitions: phenotype folding (compute_phenotype, lines 884-970) -/

/-- Protein attributes used by compute_phenotype: decoded traits m, w, h,
accumulated expression e, and the is_init and is_functional flags.  The
traits are finite doubles, modelled as rationals. -/
structure Protein where
  m : ℚ
  w : ℚ
  h : ℚ
  e : ℚ
  is_init : Bool
  is_functional : Bool
deriving DecidableEq, Repr

/-- C++ cast from double to int (lines 903-905): truncation toward zero. -/
def truncQ (q : ℚ) : ℤ := if 0 ≤ q then ⌊q⌋ else -⌊-q⌋

/-- Clamp of a triangle index into [0, 299] (lines 907-909). -/
def clampIdx (t : ℤ) : ℕ := (if t < 0 then 0 else if t > 299 then 299 else t).toNat

/-- Grid index of an abscissa: truncate x * 300 and clamp into [0, 299]. -/
def ix (x : ℚ) : ℕ := clampIdx (truncQ (x * 300))

/-- Add a value into one slot of a 300-point accumulation array (arrays are
total functions here; every index the code touches is below 300). -/
def addAt (arr : ℕ → Dbl) (i : ℕ) (v : Dbl) : ℕ → Dbl :=
  Function.update arr i ((arr i).add v)

/-- First slope loop of compute_phenotype (lines 912-924): for i strictly
between ix0 and ix1 add incY * (i - ix0), where incY = (h * e) / (ix1 - ix0),
into the activating array when h > 0 and into the inhibiting one otherwise.
The division is performed even when ix1 = ix0, in which case the loop body
never runs. -/
def slope1 (p : Protein) (st : (ℕ → Dbl) × (ℕ → Dbl)) : (ℕ → Dbl) × (ℕ → Dbl) :=
  (List.range' (ix (p.m - p.w) + 1) (ix p.m - (ix (p.m - p.w) + 1))).foldl
    (fun st i =>
      if 0 < p.h then
        (addAt st.1 i ((divQ (p.h * p.e) (((ix p.m : ℤ) - (ix (p.m - p.w) : ℤ) : ℤ) : ℚ)).mul
          (Dbl.fin ((i - ix (p.m - p.w) : ℕ) : ℚ))), st.2)
      else
        (st.1, addAt st.2 i ((divQ (p.h * p.e) (((ix p.m : ℤ) - (ix (p.m - p.w) : ℤ) : ℤ) : ℚ)).mul
          (Dbl.fin ((i - ix (p.m - p.w) : ℕ) : ℚ)))))
    st

/-- Peak contribution of compute_phenotype (lines 927-932): add h * e at
index ix1, into the array selected by the sign of h. -/
def peak (p : Protein) (st : (ℕ → Dbl) × (ℕ → Dbl)) : (ℕ → Dbl) × (ℕ → Dbl) :=
  if 0 < p.h then (addAt st.1 (ix p.m) (Dbl.fin (p.h * p.e)), st.2)
  else (st.1, addAt st.2 (ix p.m) (Dbl.fin (p.h * p.e)))

/-- Second slope loop of compute_phenotype (lines 936-951): for i strictly
between ix1 and ix2 add (h * e) - incY * (i - ix1), where
incY = (h * e) / (ix2 - ix1). -/
def slope2 (p : Protein) (st : (ℕ → Dbl) × (ℕ → Dbl)) : (ℕ → Dbl) × (ℕ → Dbl) :=
  (List.range' (ix p.m + 1) (ix (p.m + p.w) - (ix p.m + 1))).foldl
    (fun st i =>
      if 0 < p.h then
        (addAt st.1 i ((Dbl.fin (p.h * p.e)).sub
          ((divQ (p.h * p.e) (((ix (p.m + p.w) : ℤ) - (ix p.m : ℤ) : ℤ) : ℚ)).mul
            (Dbl.fin ((i - ix p.m : ℕ) : ℚ)))), st.2)
      else
        (st.1, addAt st.2 i ((Dbl.fin (p.h * p.e)).sub
          ((divQ (p.h * p.e) (((ix (p.m + p.w) : ℤ) - (ix p.m : ℤ) : ℤ) : ℚ)).mul
            (Dbl.fin ((i - ix p.m : ℕ) : ℚ))))))
    st

/-- Full triangle contribution of one protein: first slope, then peak, then
second slope, as in the body of the protein loop of compute_phenotype. -/
def applyProtein (p : Protein) (st : (ℕ → Dbl) × (ℕ → Dbl)) : (ℕ → Dbl) × (ℕ → Dbl) :=
  slope2 p (peak p (slope1 p st))

/-- Guard of the protein loop (lines 889-892): is_init, |w| and |h| at least
1e-15, and is_functional. -/
def contributes (p : Protein) : Prop :=
  p.is_init = true ∧ 1 / 1000000000000000 ≤ |p.w| ∧ 1 / 1000000000000000 ≤ |p.h| ∧
    p.is_functional = true

instance (p : Protein) : Decidable (contributes p) := by
  unfold contributes
  infer_instance

/-- Accumulation of all contributing proteins into the activating and
inhibiting arrays, both starting at zero (lines 885-886). -/
def foldProteins (prots : List Protein) : (ℕ → Dbl) × (ℕ → Dbl) :=
  prots.foldl (fun st p => if contributes p then applyProtein p st else st)
    (fun _ => Dbl.fin 0, fun _ => Dbl.fin 0)

/-- Upper clamp of the activating array at 1 (lines 957-958); on the marker
type, nan fails the comparison and is left unchanged, pinf passes it. -/
def clampActiv : Dbl → Dbl
  | .fin q => if 1 < q then .fin 1 else .fin q
  | .pinf => .fin 1
  | .ninf => .ninf
  | .nan => .nan

/-- Lower clamp of the inhibiting array at -1 (lines 959-960). -/
def clampInhib : Dbl → Dbl
  | .fin q => if q < -1 then .fin (-1) else .fin q
  | .ninf => .fin (-1)
  | .pinf => .pinf
  | .nan => .nan

/-- Final clamp of the summed phenotype into [0, 1] (lines 963-969): two
sequential comparisons, so nan is left unchanged. -/
def clamp01 : Dbl → Dbl
  | .fin q => if q < 0 then .fin 0 else if 1 < q then .fin 1 else .fin q
  | .ninf => .fin 0
  | .pinf => .fin 1
  | .nan => .nan

/-- Phenotype of an organism: fold all proteins, clamp the two curves, sum
them pointwise and clamp into [0, 1] (compute_phenotype, lines 884-970). -/
def compute_phenotype (prots : List Protein) : ℕ → Dbl :=
  fun i =>
    clamp01 ((clampActiv ((foldProteins prots).1 i)).add (clampInhib ((foldProteins prots).2 i)))

/-- Invariant: every entry of both accumulation arrays is a finite value. -/
def allFin (st : (ℕ → Dbl) × (ℕ → Dbl)) : Prop :=
  (∀ i, ∃ q, st.1 i = Dbl.fin q) ∧ (∀ i, ∃ q, st.2 i = Dbl.fin q)

/-! ## Definitions: fitness (compute_fitness, lines 978-995)

SELECTION_PRESSURE comes from macros outside this file and is kept as a
parameter sp. -/

/-- Deviation array (lines 979-982): delta i = phenotype i - target i. -/
def delta (phen targ : ℕ → ℚ) (i : ℕ) : ℚ := phen i - targ i

/-- Metabolic error (lines 984-991): accumulate, in loop order,
(|delta i| + |delta (i+1)|) / 600 for i from 0 to 298. -/
def metaerror (phen targ : ℕ → ℚ) : ℚ :=
  (List.range 299).foldl
    (fun acc i => acc + (|delta phen targ i| + |delta phen targ (i + 1)|) / 600) 0

/-- Fitness (lines 993-994): exp of minus the selection pressure times the
metabolic error. -/
noncomputable def fitness (sp : ℚ) (phen targ : ℕ → ℚ) : ℝ :=
  Real.exp (-(sp : ℝ) * (metaerror phen targ : ℝ))

/-! ## Definitions: selection (selection, lines 1002-1041) -/

/-- Sum of the gathered neighborhood fitness values (lines 1017-1027). -/
def sum_local_fit (fits : List ℚ) : ℚ := fits.foldl (· + ·) 0

/-- Probability vector of the selection lottery (lines 1029-1031): each
gathered fitness divided by the local sum, with IEEE semantics for the
division so that a zero sum with zero entries yields nan. -/
def selection_probs (fits : List ℚ) : List Dbl :=
  fits.map (fun f => divQ f (sum_local_fit fits))

/-- Cell visited by the gather loop of selection for offsets di, dj in
[0, 3) (lines 1017-1022): x = id / H, y = id mod H, then
((x + (di - 1) + W) mod W) * H + ((y + (dj - 1) + H) mod H), written here
with the + W applied before the - 1 so natural subtraction is exact. -/
def cellNeighbor (W H id di dj : ℕ) : ℕ :=
  ((id / H + di + W - 1) % W) * H + ((id % H + dj + H - 1) % H)

/-- The nine neighborhood cells in gather order: di outer, dj inner. -/
def neighborCells (W H id : ℕ) : List ℕ :=
  (List.range 3).flatMap (fun di => (List.range 3).map (fun dj => cellNeighbor W H id di dj))

/-- Parent cell recorded for drawn index k (lines 1036-1040):
x_offset = k / 3 - 1 and y_offset = k mod 3 - 1 from (x, y), modulo the
grid dimensions. -/
def selection_parent (W H id k : ℕ) : ℕ :=
  ((id / H + k / 3 + W - 1) % W) * H + ((id % H + k % 3 + H - 1) % H)

/-! ## Definitions: codon decoding (translate_protein, lines 675-859)

Modelled from the spec: the numeric codon values CODON_M0, CODON_M1,
CODON_W0, CODON_W1, CODON_H0, CODON_H1, CODON_START live in macros.h and
codon_at lives in Dna.cpp, neither of which is part of this file; the codon
classes of the specification table are represented by an inductive type,
with OTHER for the non-contributing codons. -/

/-- Codon classes dispatched by the switch of translate_protein. -/
inductive Codon where
  | START
  | M0
  | M1
  | W0
  | W1
  | H0
  | H1
  | OTHER
deriving DecidableEq, Repr

/-- Accumulator state of the decoder: the three Gray-coded words M, W, H,
their codon counters and the three parity bits. -/
structure DecodeSt where
  M : ℚ
  W : ℚ
  H : ℚ
  nb_m : ℕ
  nb_w : ℕ
  nb_h : ℕ
  bin_m : Bool
  bin_w : Bool
  bin_h : Bool
deriving DecidableEq, Repr

/-- Initial decoder state (lines 703-713): words at 0, counters at 0,
parity bits false. -/
def initDecodeSt : DecodeSt := ⟨0, 0, 0, 0, 0, 0, false, false, false⟩

/-- One switch dispatch of translate_protein (lines 716-817): on an M codon
bump nb_m, xor the parity bit with the codon value, shift M left and add the
parity bit; same for W and H; START codes as H0; other codons do nothing. -/
def translate_codon (st : DecodeSt) (c : Codon) : DecodeSt :=
  match c with
  | .M0 =>
    let b := xor st.bin_m false
    { st with nb_m := st.nb_m + 1, bin_m := b, M := st.M * 2 + (if b then 1 else 0) }
  | .M1 =>
    let b := xor st.bin_m true
    { st with nb_m := st.nb_m + 1, bin_m := b, M := st.M * 2 + (if b then 1 else 0) }
  | .W0 =>
    let b := xor st.bin_w false
    { st with nb_w := st.nb_w + 1, bin_w := b, W := st.W * 2 + (if b then 1 else 0) }
  | .W1 =>
    let b := xor st.bin_w true
    { st with nb_w := st.nb_w + 1, bin_w := b, W := st.W * 2 + (if b then 1 else 0) }
  | .H0 =>
    let b := xor st.bin_h false
    { st with nb_h := st.nb_h + 1, bin_h := b, H := st.H * 2 + (if b then 1 else 0) }
  | .START =>
    let b := xor st.bin_h false
    { st with nb_h := st.nb_h + 1, bin_h := b, H := st.H * 2 + (if b then 1 else 0) }
  | .H1 =>
    let b := xor st.bin_h true
    { st with nb_h := st.nb_h + 1, bin_h := b, H := st.H * 2 + (if b then 1 else 0) }
  | .OTHER => st

/-- Decoder run over the consumed codon list of a protein. -/
def translate_protein (codons : List Codon) : DecodeSt :=
  codons.foldl translate_codon initDecodeSt

/-- Normalization of the M word (lines 825-826): M / (2 ^ nb_m - 1) when
nb_m is nonzero, 0.5 otherwise. -/
def normalized_m (st : DecodeSt) : ℚ :=
  if st.nb_m ≠ 0 then st.M / (2 ^ st.nb_m - 1) else 1 / 2

/-- Affine scaling of a normalized trait into [xmin, xmax]
(lines 838-841). -/
def scaled_m (xmin xmax q : ℚ) : ℚ := (xmax - xmin) * q + xmin

/-! ## Definitions: checkpoint writer control flow (save, lines 198-248) -/

/-- Outcome of one invocation of save: the process exited, or save returned
with the given close status (completed false means gzclose failed and an
error message was printed to stderr). -/
inductive SaveOutcome where
  | exited
  | completed (closeOk : Bool)
deriving DecidableEq, Repr

/-- Control flow of save(t) over the two fallible I/O steps: if gzopen
fails (line 213) the process exits; otherwise the payload is written and,
when gzclose is not Z_OK (line 245), an error is printed to cerr and save
returns normally. -/
def save (openOk closeOk : Bool) : SaveOutcome :=
  if openOk = false then SaveOutcome.exited else SaveOutcome.completed closeOk

/-! ## Definitions: best-individual search (run_a_step, lines 387-396) -/

/-- Index of the best individual: start from index 0 and replace the
incumbent only on a strictly greater fitness, scanning indices 1 to
n - 1 in order. -/
def best_search (f : ℕ → ℚ) (n : ℕ) : ℕ :=
  (List.range' 1 (n - 1)).foldl (fun b i => if f i > f b then i else b) 0

end Aevol

namespace Aevol

/-! ## Lemmas: the linear scan agrees with the wrapped lower bound -/

lemma wrapAdd_lt {L p k : ℕ} (hp : p < L) (hk : k ≤ L) : wrapAdd L p k < L := by
  unfold wrapAdd
  split <;> omega

lemma scanLoop_nil (L : ℕ) : ∀ (f c : ℕ), scanLoop [] L f c = none := by
  intro f
  induction f with
  | zero => intro c; rfl
  | succ f ih => intro c; simp [scanLoop, ih]

lemma scanLoop_eq_find? (term : List ℕ) (L : ℕ) :
    ∀ (f c : ℕ), c < L → f ≤ L →
    scanLoop term L f c =
      (List.range' c (min f (L - c)) ++ List.range (f - (L - c))).find?
        (fun q => decide (q ∈ term)) := by
  intro f
  induction f with
  | zero =>
    intro c hc _
    simp [scanLoop]
  | succ f ih =>
    intro c hc hf
    have hmin : min (f + 1) (L - c) = (min f (L - c - 1)) + 1 := by omega
    rw [hmin, List.range'_succ]
    by_cases hmem : c ∈ term
    · rw [List.cons_append, List.find?_cons_of_pos _ (by simpa using hmem)]
      simp [scanLoop, hmem]
    · rw [scanLoop, if_neg hmem, List.cons_append,
        List.find?_cons_of_neg _ (by simpa using hmem)]
      rcases Nat.lt_or_ge (c + 1) L with h1 | h1
      · have hw : wrapAdd L c 1 = c + 1 := by unfold wrapAdd; split <;> omega
        rw [hw, ih (c + 1) h1 (by omega)]
        have h2 : f + 1 - (L - c) = f - (L - (c + 1)) := by omega
        have h3 : L - c - 1 = L - (c + 1) := by omega
        rw [h2, h3]
      · have hw : wrapAdd L c 1 = 0 := by unfold wrapAdd; split <;> omega
        rw [hw, ih 0 (by omega) (by omega)]
        have h4 : min f (L - 0) = f := by omega
        have h5 : f - (L - 0) = 0 := by omega
        have h6 : min f (L - c - 1) = 0 := by omega
        have h7 : f + 1 - (L - c) = f := by omega
        rw [h4, h5, h6, h7]
        simp [List.range_eq_range']

lemma find?_congr_on {α : Type} (l : List α) (p q : α → Bool)
    (h : ∀ x ∈ l, p x = q x) : l.find? p = l.find? q := by
  induction l with
  | nil => rfl
  | cons b l ih =>
    cases hq : q b
    · rw [List.find?_cons_of_neg _ (by rw [h b (List.mem_cons_self b l), hq]; simp),
        List.find?_cons_of_neg _ (by rw [hq]; simp)]
      exact ih (fun x hx => h x (List.mem_cons_of_mem b hx))
    · rw [List.find?_cons_of_pos _ (by rw [h b (List.mem_cons_self b l), hq]),
        List.find?_cons_of_pos _ hq]

lemma find?_le_self_of_sorted (a : ℕ) :
    ∀ (l : List ℕ), List.Pairwise (· < ·) l → a ∈ l →
    l.find? (fun t => decide (a ≤ t)) = some a := by
  intro l
  induction l with
  | nil => intro _ ha; cases ha
  | cons b l ih =>
    intro hl ha
    rcases List.mem_cons.mp ha with rfl | ha2
    · rw [List.find?_cons_of_pos _ (by simp)]
    · have hb : b < a := (List.pairwise_cons.mp hl).1 a ha2
      rw [List.find?_cons_of_neg _ (by simp; omega)]
      exact ih (List.pairwise_cons.mp hl).2 ha2

lemma find?_zero_le (l : List ℕ) (hne : l ≠ []) :
    l.find? (fun t => decide (0 ≤ t)) = some l.headI := by
  cases l with
  | nil => exact absurd rfl hne
  | cons b l => rw [List.find?_cons_of_pos _ (by simp)]; rfl

lemma find?_mem_range'_sorted (l : List ℕ) (hl : List.Pairwise (· < ·) l) :
    ∀ (n a : ℕ), (∀ t ∈ l, t < a + n) →
    (List.range' a n).find? (fun q => decide (q ∈ l)) = l.find? (fun t => decide (a ≤ t)) := by
  intro n
  induction n with
  | zero =>
    intro a hb
    rw [List.range'_zero, List.find?_nil]
    symm
    rw [List.find?_eq_none]
    intro t ht
    have := hb t ht
    simp
    omega
  | succ n ih =>
    intro a hb
    rw [List.range'_succ]
    by_cases ha : a ∈ l
    · rw [List.find?_cons_of_pos _ (by simpa using ha)]
      exact (find?_le_self_of_sorted a l hl ha).symm
    · rw [List.find?_cons_of_neg _ (by simpa using ha)]
      rw [ih (a + 1) (by intro t ht; have := hb t ht; omega)]
      exact (find?_congr_on l _ _ (by
        intro t ht
        have hne : t ≠ a := fun h => ha (h ▸ ht)
        simp
        omega)).symm

lemma scan_eq_lowerBound (term : List ℕ) (L s : ℕ) (hne : term ≠ [])
    (hsorted : List.Pairwise (· < ·) term) (hb : ∀ t ∈ term, t < L) (hs : s < L) :
    scanLoop term L L s = some (lowerBoundWrap term s) := by
  have h1 := scanLoop_eq_find? term L L s hs (le_refl L)
  have hm1 : min L (L - s) = L - s := by omega
  have hm2 : L - (L - s) = s := by omega
  rw [hm1, hm2, List.find?_append] at h1
  have hfirst : (List.range' s (L - s)).find? (fun q => decide (q ∈ term)) =
      term.find? (fun t => decide (s ≤ t)) := by
    apply find?_mem_range'_sorted term hsorted
    intro t ht
    have := hb t ht
    omega
  rw [hfirst] at h1
  unfold lowerBoundWrap
  cases hf : term.find? (fun t => decide (s ≤ t)) with
  | some t => rw [hf] at h1; simpa using h1
  | none =>
    rw [hf] at h1
    have hlt : ∀ t ∈ term, t < s := by
      intro t ht
      have := List.find?_eq_none.mp hf t ht
      simp at this
      omega
    have hsecond : (List.range s).find? (fun q => decide (q ∈ term)) =
        term.find? (fun t => decide (0 ≤ t)) := by
      rw [List.range_eq_range']
      apply find?_mem_range'_sorted term hsorted
      intro t ht
      have := hlt t ht
      omega
    rw [hsecond, find?_zero_le term hne] at h1
    simpa using h1

/-- Claim C1 (amended): for freshly rebuilt indices (terminator positions
strictly sorted and below L, promoter positions below L, genome length at
least the promoter size 22) the linear-scan construction equals the
terminator-set construction restricted to the RNAs of strictly positive
length.  The two builders find the same terminator, hence the same begin,
end and expression per promoter; they differ exactly on RNAs of length 0,
which compute_RNA retains (rna_length >= 0, line 547) and
opt_prom_compute_RNA drops (rna_length > 0, line 492). -/
theorem opt_eq_compute_filter (proms : List (ℕ × ℕ)) (term : List ℕ) (L : ℕ)
    (hL : 22 ≤ L) (hp : ∀ pd ∈ proms, pd.1 < L)
    (hsorted : List.Pairwise (· < ·) term) (hb : ∀ t ∈ term, t < L) :
    opt_prom_compute_RNA proms term L =
      (compute_RNA proms term L).filter (fun r => decide (0 < r.length)) := by
  by_cases hne : term = []
  · subst hne
    rw [show compute_RNA proms [] L = [] by simp [compute_RNA], List.filter_nil,
      opt_prom_compute_RNA, List.filterMap_eq_nil_iff]
    intro pd _
    rw [optPerProm, scanLoop_nil]
  · rw [compute_RNA, if_neg (by simpa [List.isEmpty_iff] using hne)]
    rw [opt_prom_compute_RNA]
    induction proms with
    | nil => rfl
    | cons pd l ih =>
      have hpd : pd.1 < L := hp pd (List.mem_cons_self pd l)
      have hs : wrapAdd L pd.1 22 < L := wrapAdd_lt hpd (by omega)
      have hscan := scan_eq_lowerBound term L (wrapAdd L pd.1 22) hne hsorted hb hs
      have ihl := ih (fun x hx => hp x (List.mem_cons_of_mem pd hx))
      rw [List.filterMap_cons, List.filterMap_cons]
      have hopt : optPerProm term L pd =
          (if 0 < ((circLen L pd.1 (wrapAdd L (lowerBoundWrap term (wrapAdd L pd.1 22)) 10) : ℤ) - 21) then
            some ⟨pd.1, wrapAdd L (lowerBoundWrap term (wrapAdd L pd.1 22)) 10, 1 - |(pd.2 : ℚ)| / 5,
              (circLen L pd.1 (wrapAdd L (lowerBoundWrap term (wrapAdd L pd.1 22)) 10) : ℤ) - 21⟩
          else none) := by
        unfold optPerProm
        rw [hscan]
      have hcomp : computePerProm term L pd =
          (if 0 ≤ ((circLen L pd.1 (wrapAdd L (lowerBoundWrap term (wrapAdd L pd.1 22)) 10) : ℤ) - 21) then
            some ⟨pd.1, wrapAdd L (lowerBoundWrap term (wrapAdd L pd.1 22)) 10, 1 - |(pd.2 : ℚ)| / 5,
              (circLen L pd.1 (wrapAdd L (lowerBoundWrap term (wrapAdd L pd.1 22)) 10) : ℤ) - 21⟩
          else none) := rfl
      rw [hopt, hcomp]
      rcases lt_trichotomy ((circLen L pd.1 (wrapAdd L (lowerBoundWrap term (wrapAdd L pd.1 22)) 10) : ℤ) - 21) 0 with hc | hc | hc
      · rw [if_neg (by omega), if_neg (by omega)]
        exact ihl
      · rw [if_neg (by omega), if_pos (by omega), List.filter_cons, if_neg (by simp; omega)]
        exact ihl
      · rw [if_pos hc, if_pos (by omega), List.filter_cons, if_pos (by simp; omega)]
        rw [ihl]

/-- Claim C1 (counterexample to the claim as stated): with a single promoter
at position 5 (distance 0) and a single terminator at position 16 on a
genome of length 50, the RNA would end at position 26 and have length 0;
compute_RNA retains it while opt_prom_compute_RNA drops it, so the two
constructions do not produce the same list of RNAs. -/
theorem claim_C1_counterexample :
    compute_RNA [(5, 0)] [16] 50 ≠ opt_prom_compute_RNA [(5, 0)] [16] 50 ∧
    (compute_RNA [(5, 0)] [16] 50).length = 1 ∧
    (opt_prom_compute_RNA [(5, 0)] [16] 50).length = 0 := by
  refine ⟨fun h => ?_, by decide, by decide⟩
  have hlen := congrArg List.length h
  revert hlen
  decide

/-- Claim C1 (witness): the amended equivalence applied at the concrete
counterexample input. -/
theorem opt_eq_compute_filter_witness :
    ((22 : ℕ) ≤ 50 ∧ (∀ pd ∈ [((5 : ℕ), (0 : ℕ))], pd.1 < 50) ∧
      List.Pairwise (· < ·) [(16 : ℕ)] ∧ (∀ t ∈ [(16 : ℕ)], t < 50)) ∧
    opt_prom_compute_RNA [(5, 0)] [16] 50 =
      (compute_RNA [(5, 0)] [16] 50).filter (fun r => decide (0 < r.length)) :=
  ⟨⟨by decide, by decide, by decide, by decide⟩,
    opt_eq_compute_filter [(5, 0)] [16] 50 (by decide) (by decide) (by decide) (by decide)⟩

/-- Claim C2 (amended): every RNA retained by either construction stores
length = circular_distance(begin, end) - 21; the length is strictly positive
for opt_prom_compute_RNA but only nonnegative for compute_RNA, which also
retains zero-length RNAs. -/
theorem rna_length_def (proms : List (ℕ × ℕ)) (term : List ℕ) (L : ℕ) :
    (∀ r ∈ compute_RNA proms term L,
      r.length = (circLen L r.begin r.end_ : ℤ) - 21 ∧ 0 ≤ r.length) ∧
    (∀ r ∈ opt_prom_compute_RNA proms term L,
      r.length = (circLen L r.begin r.end_ : ℤ) - 21 ∧ 0 < r.length) := by
  constructor
  · intro r hr
    rw [compute_RNA] at hr
    split at hr
    · cases hr
    · obtain ⟨pd, _, heq⟩ := List.mem_filterMap.mp hr
      simp only [computePerProm] at heq
      split at heq
      · cases heq
        exact ⟨rfl, by assumption⟩
      · cases heq
  · intro r hr
    rw [opt_prom_compute_RNA] at hr
    obtain ⟨pd, _, heq⟩ := List.mem_filterMap.mp hr
    simp only [optPerProm] at heq
    split at heq
    · cases heq
    · split at heq
      · cases heq
        exact ⟨rfl, by assumption⟩
      · cases heq

/-- Claim C2 (witness): the length law applied to the zero-length RNA that
compute_RNA retains for a promoter at 0 and a terminator at 11 on a genome
of length 40. -/
theorem rna_length_def_witness :
    (⟨0, 21, 1 - |((0 : ℕ) : ℚ)| / 5, 0⟩ : RNA) ∈ compute_RNA [(0, 0)] [11] 40 ∧
    ((⟨0, 21, 1 - |((0 : ℕ) : ℚ)| / 5, 0⟩ : RNA).length =
      (circLen 40 (⟨0, 21, 1 - |((0 : ℕ) : ℚ)| / 5, 0⟩ : RNA).begin
        (⟨0, 21, 1 - |((0 : ℕ) : ℚ)| / 5, 0⟩ : RNA).end_ : ℤ) - 21 ∧
      0 ≤ (⟨0, 21, 1 - |((0 : ℕ) : ℚ)| / 5, 0⟩ : RNA).length) := by
  have hmem : (⟨0, 21, 1 - |((0 : ℕ) : ℚ)| / 5, 0⟩ : RNA) ∈ compute_RNA [(0, 0)] [11] 40 :=
    List.mem_cons_self _ _
  exact ⟨hmem, (rna_length_def [(0, 0)] [11] 40).1 _ hmem⟩

/-- Claim C2 (counterexample to the claim as stated): compute_RNA retains an
RNA whose stored length is 0, so the strict positivity asserted by the claim
fails for the terminator-set construction. -/
theorem claim_C2_counterexample :
    ∃ r ∈ compute_RNA [(0, 0)] [11] 40, ¬ (0 < r.length) :=
  ⟨⟨0, 21, 1 - |((0 : ℕ) : ℚ)| / 5, 0⟩, List.mem_cons_self _ _, by decide⟩

end Aevol

namespace Aevol

/-! ## Lemmas: finiteness of the phenotype accumulation arrays -/

lemma addAt_fin {arr : ℕ → Dbl} (hq : ∀ i, ∃ q, arr i = Dbl.fin q) (j : ℕ) (v : ℚ) :
    ∀ i, ∃ q, addAt arr j (Dbl.fin v) i = Dbl.fin q := by
  intro i
  unfold addAt
  rcases eq_or_ne i j with rfl | hne
  · obtain ⟨a, ha⟩ := hq i
    rw [Function.update_same, ha]
    exact ⟨a + v, rfl⟩
  · rw [Function.update_noteq hne]
    exact hq i

lemma foldl_preserve {α β : Type} (P : β → Prop) (g : β → α → β)
    (hg : ∀ st a, P st → P (g st a)) : ∀ (l : List α) (st : β), P st → P (l.foldl g st) := by
  intro l
  induction l with
  | nil => intro st h; exact h
  | cons a l ih => intro st h; exact ih _ (hg st a h)

lemma slope1_allFin (p : Protein) (st : (ℕ → Dbl) × (ℕ → Dbl)) (h : allFin st) :
    allFin (slope1 p st) := by
  unfold slope1
  rcases Nat.eq_zero_or_pos (ix p.m - (ix (p.m - p.w) + 1)) with hz | hpos
  · rw [hz, List.range'_zero, List.foldl_nil]
    exact h
  · have hdz : ((ix p.m : ℤ) - (ix (p.m - p.w) : ℤ)) ≠ 0 := by omega
    have hQ : ((((ix p.m : ℤ) - (ix (p.m - p.w) : ℤ)) : ℤ) : ℚ) ≠ 0 := Int.cast_ne_zero.mpr hdz
    have hfin : divQ (p.h * p.e) ((((ix p.m : ℤ) - (ix (p.m - p.w) : ℤ) : ℤ)) : ℚ) =
        Dbl.fin ((p.h * p.e) / ((((ix p.m : ℤ) - (ix (p.m - p.w) : ℤ) : ℤ)) : ℚ)) := by
      unfold divQ
      rw [if_neg hQ]
    apply foldl_preserve allFin
    · intro s i hs
      rw [hfin]
      split
      · exact ⟨addAt_fin hs.1 i _, hs.2⟩
      · exact ⟨hs.1, addAt_fin hs.2 i _⟩
    · exact h

lemma peak_allFin (p : Protein) (st : (ℕ → Dbl) × (ℕ → Dbl)) (h : allFin st) :
    allFin (peak p st) := by
  unfold peak
  split
  · exact ⟨addAt_fin h.1 _ _, h.2⟩
  · exact ⟨h.1, addAt_fin h.2 _ _⟩

lemma slope2_allFin (p : Protein) (st : (ℕ → Dbl) × (ℕ → Dbl)) (h : allFin st) :
    allFin (slope2 p st) := by
  unfold slope2
  rcases Nat.eq_zero_or_pos (ix (p.m + p.w) - (ix p.m + 1)) with hz | hpos
  · rw [hz, List.range'_zero, List.foldl_nil]
    exact h
  · have hdz : ((ix (p.m + p.w) : ℤ) - (ix p.m : ℤ)) ≠ 0 := by omega
    have hQ : ((((ix (p.m + p.w) : ℤ) - (ix p.m : ℤ)) : ℤ) : ℚ) ≠ 0 := Int.cast_ne_zero.mpr hdz
    have hfin : divQ (p.h * p.e) ((((ix (p.m + p.w) : ℤ) - (ix p.m : ℤ) : ℤ)) : ℚ) =
        Dbl.fin ((p.h * p.e) / ((((ix (p.m + p.w) : ℤ) - (ix p.m : ℤ) : ℤ)) : ℚ)) := by
      unfold divQ
      rw [if_neg hQ]
    apply foldl_preserve allFin
    · intro s i hs
      rw [hfin]
      split
      · exact ⟨addAt_fin hs.1 i _, hs.2⟩
      · exact ⟨hs.1, addAt_fin hs.2 i _⟩
    · exact h

lemma foldProteins_allFin (prots : List Protein) : allFin (foldProteins prots) := by
  unfold foldProteins
  apply foldl_preserve allFin
  · intro st p hst
    split
    · exact slope2_allFin p _ (peak_allFin p _ (slope1_allFin p st hst))
    · exact hst
  · exact ⟨fun i => ⟨0, rfl⟩, fun i => ⟨0, rfl⟩⟩

lemma clamp01_fin_bounds (z : ℚ) :
    ∃ q, clamp01 (Dbl.fin z) = Dbl.fin q ∧ 0 ≤ q ∧ q ≤ 1 := by
  simp only [clamp01]
  split_ifs with h1 h2
  · exact ⟨0, rfl, le_refl 0, by norm_num⟩
  · exact ⟨1, rfl, by norm_num, le_refl 1⟩
  · exact ⟨z, rfl, by linarith, by linarith⟩

lemma compute_phenotype_fin (prots : List Protein) (i : ℕ) :
    ∃ q, compute_phenotype prots i = Dbl.fin q ∧ 0 ≤ q ∧ q ≤ 1 := by
  obtain ⟨ha, hb⟩ := foldProteins_allFin prots
  obtain ⟨a, hA⟩ := ha i
  obtain ⟨b, hB⟩ := hb i
  unfold compute_phenotype
  rw [hA, hB]
  simp only [clampActiv, clampInhib]
  split_ifs with h1 h2 h2 <;>
    exact clamp01_fin_bounds _

/-- Claim C6: after compute_phenotype every phenotype entry is a finite
value in [0, 1]; the activating curve is clamped from above at 1, the
inhibiting curve from below at -1, and the pointwise sum is clamped into
[0, 1]. -/
theorem compute_phenotype_bounded (prots : List Protein) :
    (∀ q, clampActiv (Dbl.fin q) = Dbl.fin (min q 1)) ∧
    (∀ q, clampInhib (Dbl.fin q) = Dbl.fin (max q (-1))) ∧
    ∀ i, ∃ q, compute_phenotype prots i = Dbl.fin q ∧ 0 ≤ q ∧ q ≤ 1 := by
  refine ⟨?_, ?_, fun i => compute_phenotype_fin prots i⟩
  · intro q
    simp only [clampActiv]
    split_ifs with h
    · rw [min_eq_right (by linarith)]
    · rw [min_eq_left (by linarith)]
  · intro q
    simp only [clampInhib]
    split_ifs with h
    · rw [max_eq_right (by linarith)]
    · rw [max_eq_left (by linarith)]

/-- Claim C9: when the clamped triangle indices coincide (ix0 = ix1, or
ix1 = ix2) the corresponding slope loop leaves the arrays unchanged, even
though the C++ code has already computed the infinite (or nan) slope
incY = h * e / 0; the peak h * e is still added at ix1 into the array
selected by the sign of h; and no infinity or nan ever reaches the
phenotype array. -/
theorem compute_phenotype_degenerate :
    (∀ (p : Protein) (st : (ℕ → Dbl) × (ℕ → Dbl)),
      ix (p.m - p.w) = ix p.m → slope1 p st = st) ∧
    (∀ (p : Protein) (st : (ℕ → Dbl) × (ℕ → Dbl)),
      ix p.m = ix (p.m + p.w) → slope2 p st = st) ∧
    (∀ (p : Protein) (st : (ℕ → Dbl) × (ℕ → Dbl)), 0 < p.h →
      (peak p st).1 (ix p.m) = (st.1 (ix p.m)).add (Dbl.fin (p.h * p.e)) ∧
        (peak p st).2 = st.2) ∧
    (∀ (p : Protein) (st : (ℕ → Dbl) × (ℕ → Dbl)), ¬ 0 < p.h →
      (peak p st).2 (ix p.m) = (st.2 (ix p.m)).add (Dbl.fin (p.h * p.e)) ∧
        (peak p st).1 = st.1) ∧
    (∀ (prots : List Protein) (i : ℕ),
      compute_phenotype prots i ≠ Dbl.nan ∧ compute_phenotype prots i ≠ Dbl.pinf ∧
        compute_phenotype prots i ≠ Dbl.ninf) := by
  refine ⟨?_, ?_, ?_, ?_, ?_⟩
  · intro p st heq
    unfold slope1
    rw [heq, show ix p.m - (ix p.m + 1) = 0 by omega, List.range'_zero, List.foldl_nil]
  · intro p st heq
    unfold slope2
    rw [← heq, show ix p.m - (ix p.m + 1) = 0 by omega, List.range'_zero, List.foldl_nil]
  · intro p st hp
    unfold peak
    rw [if_pos hp]
    exact ⟨by simp [addAt], rfl⟩
  · intro p st hp
    unfold peak
    rw [if_neg hp]
    exact ⟨by simp [addAt], rfl⟩
  · intro prots i
    obtain ⟨q, hq, _, _⟩ := compute_phenotype_fin prots i
    rw [hq]
    refine ⟨by simp, by simp, by simp⟩

/-- Claim C9 (witness): a protein with m = 1/600 and w = 1/1000000 has
ix0 = ix1 = ix2 = 0; both slope loops leave the zero arrays unchanged and
the peak h * e = 1 is added at index 0. -/
theorem compute_phenotype_degenerate_witness :
    ix ((1 : ℚ) / 600 - 1 / 1000000) = ix ((1 : ℚ) / 600) ∧
    ix ((1 : ℚ) / 600) = ix ((1 : ℚ) / 600 + 1 / 1000000) ∧
    (0 : ℚ) < 1 ∧
    slope1 ⟨1 / 600, 1 / 1000000, 1, 1, true, true⟩ (fun _ => Dbl.fin 0, fun _ => Dbl.fin 0) =
      (fun _ => Dbl.fin 0, fun _ => Dbl.fin 0) ∧
    slope2 ⟨1 / 600, 1 / 1000000, 1, 1, true, true⟩ (fun _ => Dbl.fin 0, fun _ => Dbl.fin 0) =
      (fun _ => Dbl.fin 0, fun _ => Dbl.fin 0) ∧
    (peak ⟨1 / 600, 1 / 1000000, 1, 1, true, true⟩
        (fun _ => Dbl.fin 0, fun _ => Dbl.fin 0)).1 (ix ((1 : ℚ) / 600)) =
      ((fun _ => Dbl.fin 0 : ℕ → Dbl) (ix ((1 : ℚ) / 600))).add (Dbl.fin ((1 : ℚ) * 1)) := by
  have ha : ix ((1 : ℚ) / 600 - 1 / 1000000) = 0 := by
    norm_num [ix, truncQ, clampIdx]
  have hb : ix ((1 : ℚ) / 600) = 0 := by
    norm_num [ix, truncQ, clampIdx]
  have hc : ix ((1 : ℚ) / 600 + 1 / 1000000) = 0 := by
    norm_num [ix, truncQ, clampIdx]
  have h1 : ix ((1 : ℚ) / 600 - 1 / 1000000) = ix ((1 : ℚ) / 600) := by rw [ha, hb]
  have h2 : ix ((1 : ℚ) / 600) = ix ((1 : ℚ) / 600 + 1 / 1000000) := by rw [hb, hc]
  refine ⟨h1, h2, by norm_num, ?_, ?_, ?_⟩
  · exact compute_phenotype_degenerate.1 ⟨1 / 600, 1 / 1000000, 1, 1, true, true⟩ _ h1
  · exact compute_phenotype_degenerate.2.1 ⟨1 / 600, 1 / 1000000, 1, 1, true, true⟩ _ h2
  · exact (compute_phenotype_degenerate.2.2.1 ⟨1 / 600, 1 / 1000000, 1, 1, true, true⟩
      (fun _ => Dbl.fin 0, fun _ => Dbl.fin 0) (show (0 : ℚ) < 1 by norm_num)).1

end Aevol

namespace Aevol

/-- Claim C3: when all nine gathered fitness values are zero the sum is
zero and the code computes probs[i] = 0.0 / 0.0, which is nan for every
slot, not the uniform probability 1/9; the nan vector is what is handed to
roulette_random. -/
theorem selection_zero_fitness_nan :
    sum_local_fit (List.replicate 9 0) = 0 ∧
    selection_probs (List.replicate 9 0) = List.replicate 9 Dbl.nan ∧
    Dbl.nan ≠ Dbl.fin (1 / 9) := by
  have hsum : sum_local_fit (List.replicate 9 0) = 0 := by
    simp [sum_local_fit, List.replicate]
  refine ⟨hsum, ?_, by simp⟩
  rw [selection_probs, hsum, List.map_replicate]
  rw [show divQ 0 0 = Dbl.nan by simp [divQ]]

/-- Claim C4 (counterexample to the claim as stated): when gzopen succeeds
and gzclose fails, save prints an error message and returns normally
instead of exiting, so it is not the case that either the close succeeds or
the process terminates. -/
theorem claim_C4_counterexample :
    ¬ (save true false = SaveOutcome.exited ∨ (false : Bool) = true) := by decide

/-- Claim C4 (amended): save exits only on gzopen failure; on gzclose
failure it reports the error on stderr and returns, leaving the (possibly
partial) checkpoint in place. -/
theorem save_close_failure_continues :
    (∀ c, save false c = SaveOutcome.exited) ∧
    save true false = SaveOutcome.completed false ∧
    save true true = SaveOutcome.completed true :=
  ⟨fun _ => rfl, rfl, rfl⟩

/-! ## Lemmas: loop accumulation equals the finite sum -/

lemma foldl_add_range (g : ℕ → ℚ) : ∀ (n : ℕ) (c : ℚ),
    (List.range n).foldl (fun acc i => acc + g i) c = c + ∑ i in Finset.range n, g i := by
  intro n
  induction n with
  | zero => intro c; simp
  | succ n ih =>
    intro c
    rw [List.range_succ, List.foldl_append, ih, Finset.sum_range_succ]
    simp [add_assoc]

/-- Claim C5: compute_fitness sets delta[i] = phenotype[i] - target[i], the
metabolic error is the trapezoidal sum of (|delta i| + |delta (i+1)|) / 600
for i in [0, 299), and the fitness is exp(-SELECTION_PRESSURE * metaerror)
(the selection pressure is the parameter sp). -/
theorem compute_fitness_spec (sp : ℚ) (phen targ : ℕ → ℚ) :
    (∀ i, delta phen targ i = phen i - targ i) ∧
    metaerror phen targ =
      ∑ i in Finset.range 299, (|phen i - targ i| + |phen (i + 1) - targ (i + 1)|) / 600 ∧
    fitness sp phen targ = Real.exp (-(sp : ℝ) * (metaerror phen targ : ℝ)) := by
  refine ⟨fun i => rfl, ?_, rfl⟩
  rw [metaerror, foldl_add_range
    (fun i => (|delta phen targ i| + |delta phen targ (i + 1)|) / 600) 299 0, zero_add]
  rfl

/-- Claim C7: a protein whose consumed codon list is [M1, M0, M0] decodes
with nb_m = 3, parity trajectory false, true, true, true, accumulator
M = 7, normalized m = 7 / 7 = 1, and after affine scaling m = X_MAX, for
any bounds X_MIN, X_MAX. -/
theorem gray_decode_M1_M0_M0 (xmin xmax : ℚ) :
    (translate_protein [Codon.M1, Codon.M0, Codon.M0]).nb_m = 3 ∧
    (List.scanl translate_codon initDecodeSt [Codon.M1, Codon.M0, Codon.M0]).map DecodeSt.bin_m =
      [false, true, true, true] ∧
    (translate_protein [Codon.M1, Codon.M0, Codon.M0]).M = 7 ∧
    normalized_m (translate_protein [Codon.M1, Codon.M0, Codon.M0]) = 1 ∧
    scaled_m xmin xmax (normalized_m (translate_protein [Codon.M1, Codon.M0, Codon.M0])) = xmax := by
  have hM : (translate_protein [Codon.M1, Codon.M0, Codon.M0]).M = 7 := by
    simp [translate_protein, translate_codon, initDecodeSt]
    norm_num
  have hnb : (translate_protein [Codon.M1, Codon.M0, Codon.M0]).nb_m = 3 := by
    simp [translate_protein, translate_codon, initDecodeSt]
  have hnorm : normalized_m (translate_protein [Codon.M1, Codon.M0, Codon.M0]) = 1 := by
    rw [normalized_m, if_pos (by rw [hnb]; norm_num), hM, hnb]
    norm_num
  refine ⟨hnb, ?_, hM, hnorm, ?_⟩
  · simp [List.scanl, translate_codon, initDecodeSt]
  · rw [hnorm, scaled_m]
    ring

/-- Claim C8: with the linearization id = x * H + y (x = id / H,
y = id mod H), the 3 by 3 toroidal neighborhood of cell 0 on a 4 by 4 grid
is gathered in the order (3,3), (3,0), (3,1), (0,3), (0,0), (0,1), (1,3),
(1,0), (1,1), and for every drawn index k below 9 the recorded parent at
offsets (k / 3 - 1, k mod 3 - 1) is exactly the k-th gathered neighbor. -/
theorem selection_neighborhood_spec :
    neighborCells 4 4 0 = [15, 12, 13, 3, 0, 1, 7, 4, 5] ∧
    ∀ (W H id k : ℕ), k < 9 →
      (neighborCells W H id).get? k = some (selection_parent W H id k) := by
  refine ⟨by decide, ?_⟩
  intro W H id k hk
  interval_cases k <;> rfl

/-- Claim C8 (witness): the parent alignment applied at the 4 by 4 grid,
cell 0, drawn index 0. -/
theorem selection_neighborhood_witness :
    (0 : ℕ) < 9 ∧ (neighborCells 4 4 0).get? 0 = some (selection_parent 4 4 0 0) :=
  ⟨by decide, selection_neighborhood_spec.2 4 4 0 0 (by decide)⟩

/-! ## Lemmas: the best-individual scan -/

lemma best_search_succ (f : ℕ → ℚ) (n : ℕ) (hn : 0 < n) :
    best_search f (n + 1) = if f n > f (best_search f n) then n else best_search f n := by
  unfold best_search
  have h1 : n + 1 - 1 = (n - 1) + 1 := by omega
  rw [h1, List.range'_concat, List.foldl_append]
  have h2 : 1 + 1 * (n - 1) = n := by omega
  rw [h2]
  rfl

/-- Claim C10: the best-individual scan of run_a_step starts at index 0 and
replaces the incumbent only on strictly greater fitness, so the returned
index attains the maximum and is the smallest cell id among the organisms
sharing the maximal fitness. -/
theorem best_search_spec (f : ℕ → ℚ) : ∀ (n : ℕ), 0 < n →
    best_search f n < n ∧
    ∀ j, j < n → f j ≤ f (best_search f n) ∧ (f j = f (best_search f n) → best_search f n ≤ j) := by
  intro n
  induction n with
  | zero => intro h; cases h
  | succ n ih =>
    intro _
    by_cases hn : 0 < n
    · obtain ⟨hlt, hmax⟩ := ih hn
      rw [best_search_succ f n hn]
      by_cases hgt : f n > f (best_search f n)
      · rw [if_pos hgt]
        refine ⟨by omega, ?_⟩
        intro j hj
        rcases Nat.lt_or_ge j n with h | h
        · obtain ⟨h1, _⟩ := hmax j h
          exact ⟨by linarith, fun he => by exfalso; rw [he] at h1; linarith⟩
        · have hjn : j = n := by omega
          subst hjn
          exact ⟨le_refl _, fun _ => le_refl _⟩
      · rw [if_neg hgt]
        push_neg at hgt
        refine ⟨by omega, ?_⟩
        intro j hj
        rcases Nat.lt_or_ge j n with h | h
        · exact hmax j h
        · have hjn : j = n := by omega
          subst hjn
          exact ⟨hgt, fun _ => by omega⟩
    · have hn0 : n = 0 := by omega
      subst hn0
      have hb : best_search f 1 = 0 := by simp [best_search]
      rw [hb]
      refine ⟨by omega, ?_⟩
      intro j hj
      have : j = 0 := by omega
      subst this
      exact ⟨le_refl _, fun _ => le_refl _⟩

/-- Claim C10 (witness): the scan applied to a two-cell population with
equal fitness values; the tie is resolved to cell 0. -/
theorem best_search_spec_witness :
    (0 : ℕ) < 2 ∧
    (best_search (fun _ => (1 : ℚ)) 2 < 2 ∧
      ∀ j, j < 2 → (fun _ => (1 : ℚ)) j ≤ (fun _ => (1 : ℚ)) (best_search (fun _ => (1 : ℚ)) 2) ∧
        ((fun _ => (1 : ℚ)) j = (fun _ => (1 : ℚ)) (best_search (fun _ => (1 : ℚ)) 2) →
          best_search (fun _ => (1 : ℚ)) 2 ≤ j)) :=
  ⟨by decide, best_search_spec (fun _ => (1 : ℚ)) 2 (by decide)⟩

end Aevol
